import Mathlib

/-!
Verification of the statistics aggregator of the disk-backed account index
(`accounts-db/src/bucket_map_holder_stats.rs`).

Modelling conventions:
* Atomic `u64`/`usize` counters are modelled as `Nat` together with the
  explicit modulus `2 ^ 64` (the validator targets 64-bit platforms);
  `fetch_add`/`fetch_sub` wrap modulo `2 ^ 64`, exactly as Rust's atomic
  integers do (they never trap).  `Nat` subtraction (`a - b`) models Rust's
  `saturating_sub`.
* The concurrent stats block is modelled as an explicit state record
  `BucketMapHolderStats`; every operation is a state-passing function.
* `datapoint_info!` telemetry events are modelled by the list of emitted
  event names; the numeric payload fields of an event are not modelled.
* `Age` (from `bucket_map_holder.rs`, not part of this slice) is an 8-bit
  wrapping counter with `Age::MAX = 255`.
-/

namespace BucketMap

/-- The modulus of `u64`/`usize` machine integers (64-bit target). -/
def wordMod : Nat := 2 ^ 64

/-- Wrapping addition, the effect of `AtomicU64::fetch_add` / `AtomicUsize::fetch_add`. -/
def wrapAdd (a b : Nat) : Nat := (a + b) % wordMod

/-- Wrapping subtraction, the effect of `AtomicU64::fetch_sub` / `AtomicUsize::fetch_sub`:
wraps modulo `2 ^ 64` on underflow, never traps. -/
def wrapSub (a b : Nat) : Nat := (a + (wordMod - b % wordMod)) % wordMod

/-- `Vec::get(i)` followed by `map (fetch-op)`: modify the element at index `i`
when it exists, leave the list unchanged when `i` is out of range. -/
def modifyAt (l : List Nat) (i : Nat) (f : Nat → Nat) : List Nat :=
  match l, i with
  | [], _ => []
  | x :: xs, 0 => f x :: xs
  | x :: xs, i + 1 => x :: modifyAt xs i f

/-- `BucketMapHeldInMemStats`: counters summed over entries currently held in memory. -/
structure BucketMapHeldInMemStats where
  ref_count : Nat
  slot_list_len : Nat
  slot_list_cached : Nat
deriving Repr, DecidableEq

/-- `BucketMapHolderStats`: the process-wide stats block.  Atomic fields become
`Nat` (values `< wordMod` in well-formed states), `AtomicBool` becomes `Bool`,
the `AtomicInterval` becomes its stored last-update timestamp (`last_time`). -/
structure BucketMapHolderStats where
  held_in_mem : BucketMapHeldInMemStats
  get_mem_us : Nat
  gets_from_mem : Nat
  get_missing_us : Nat
  gets_missing : Nat
  entry_mem_us : Nat
  entries_from_mem : Nat
  entry_missing_us : Nat
  entries_missing : Nat
  load_disk_found_count : Nat
  load_disk_found_us : Nat
  load_disk_missing_count : Nat
  load_disk_missing_us : Nat
  updates_in_mem : Nat
  items : Nat
  items_us : Nat
  failed_to_evict : Nat
  keys : Nat
  deletes : Nat
  buckets_scanned : Nat
  inserts : Nat
  count : Nat
  bg_waiting_us : Nat
  bg_throttling_wait_us : Nat
  count_in_mem : Nat
  per_bucket_count : List Nat
  flush_entries_updated_on_disk : Nat
  flush_entries_evicted_from_mem : Nat
  active_threads : Nat
  get_range_us : Nat
  last_age : Nat
  last_ages_flushed : Nat
  flush_scan_us : Nat
  flush_update_us : Nat
  flush_evict_us : Nat
  flush_grow_us : Nat
  last_was_startup : Bool
  last_time : Nat
  bins : Nat
  estimate_mem : Nat
  flush_should_evict_us : Nat
deriving Repr, DecidableEq

namespace BucketMapHolderStats

/-- `BucketMapHolderStats::new(bins)`: default (all-zero) fields, with
`per_bucket_count` a vector of `bins` zeroed counters. -/
def new (bins : Nat) : BucketMapHolderStats where
  held_in_mem := { ref_count := 0, slot_list_len := 0, slot_list_cached := 0 }
  get_mem_us := 0
  gets_from_mem := 0
  get_missing_us := 0
  gets_missing := 0
  entry_mem_us := 0
  entries_from_mem := 0
  entry_missing_us := 0
  entries_missing := 0
  load_disk_found_count := 0
  load_disk_found_us := 0
  load_disk_missing_count := 0
  load_disk_missing_us := 0
  updates_in_mem := 0
  items := 0
  items_us := 0
  failed_to_evict := 0
  keys := 0
  deletes := 0
  buckets_scanned := 0
  inserts := 0
  count := 0
  bg_waiting_us := 0
  bg_throttling_wait_us := 0
  count_in_mem := 0
  per_bucket_count := List.replicate bins 0
  flush_entries_updated_on_disk := 0
  flush_entries_evicted_from_mem := 0
  active_threads := 0
  get_range_us := 0
  last_age := 0
  last_ages_flushed := 0
  flush_scan_us := 0
  flush_update_us := 0
  flush_evict_us := 0
  flush_grow_us := 0
  last_was_startup := false
  last_time := 0
  bins := bins
  estimate_mem := 0
  flush_should_evict_us := 0

/-- `inc_insert_count(count)`: `inserts.fetch_add(count)`, `count.fetch_add(count)`. -/
def inc_insert_count (s : BucketMapHolderStats) (count : Nat) : BucketMapHolderStats :=
  { s with inserts := wrapAdd s.inserts count, count := wrapAdd s.count count }

/-- `inc_insert()`. -/
def inc_insert (s : BucketMapHolderStats) : BucketMapHolderStats :=
  s.inc_insert_count 1

/-- `inc_delete()`: `deletes.fetch_add(1)`, `count.fetch_sub(1)`. -/
def inc_delete (s : BucketMapHolderStats) : BucketMapHolderStats :=
  { s with deletes := wrapAdd s.deletes 1, count := wrapSub s.count 1 }

/-- `add_mem_count(bin, count)`: `count_in_mem.fetch_add(count)`, and
`per_bucket_count.get(bin).map(|stat| stat.fetch_add(count))`. -/
def add_mem_count (s : BucketMapHolderStats) (bin count : Nat) : BucketMapHolderStats :=
  { s with count_in_mem := wrapAdd s.count_in_mem count,
           per_bucket_count := modifyAt s.per_bucket_count bin (fun x => wrapAdd x count) }

/-- `sub_mem_count(bin, count)`: `count_in_mem.fetch_sub(count)`, and
`per_bucket_count.get(bin).map(|stat| stat.fetch_sub(count))`. -/
def sub_mem_count (s : BucketMapHolderStats) (bin count : Nat) : BucketMapHolderStats :=
  { s with count_in_mem := wrapSub s.count_in_mem count,
           per_bucket_count := modifyAt s.per_bucket_count bin (fun x => wrapSub x count) }

/-- `inc_mem_count(bin)`. -/
def inc_mem_count (s : BucketMapHolderStats) (bin : Nat) : BucketMapHolderStats :=
  s.add_mem_count bin 1

/-- `dec_mem_count(bin)`. -/
def dec_mem_count (s : BucketMapHolderStats) (bin : Nat) : BucketMapHolderStats :=
  s.sub_mem_count bin 1

/-- `get_stats(data)`: sort (modelling `sort_unstable`), then return
`(min, max, sum, median)`; empty input yields all zeros.  The `unwrap()`s on
first/last cannot fail on the non-empty branch, so defaulted accessors are
used.  `data.iter().sum::<usize>()` is a left-to-right accumulation with
machine `usize` addition, so it wraps modulo `2 ^ 64`. -/
def get_stats (data : List Nat) : Nat × Nat × Nat × Nat :=
  if data.isEmpty then (0, 0, 0, 0)
  else
    let d := data.insertionSort (· ≤ ·)
    (d.headD 0, d.getLastD 0, d.foldl wrapAdd 0, d.getD (d.length / 2) 0)

/-- `total_count()`. -/
def total_count (s : BucketMapHolderStats) : Nat := s.count

/-- `count_in_bucket(bucket)`: the bucket's counter when `bucket` is in range,
`0` otherwise.  A pure read: it takes the state and returns a number. -/
def count_in_bucket (s : BucketMapHolderStats) (bucket : Nat) : Nat :=
  if bucket < s.per_bucket_count.length then s.per_bucket_count.getD bucket 0 else 0

/-- `get_remaining_items_to_flush_estimate()`: `count_in_mem` saturating-minus the
held-in-mem sum.  The inner `+`s are u64 machine additions (wrap modulo `2 ^ 64`);
the subtraction is `saturating_sub` (`Nat` subtraction). -/
def get_remaining_items_to_flush_estimate (s : BucketMapHolderStats) : Nat :=
  let in_mem := s.count_in_mem
  let held_in_mem :=
    wrapAdd (wrapAdd s.held_in_mem.slot_list_cached s.held_in_mem.slot_list_len)
      s.held_in_mem.ref_count
  in_mem - held_in_mem

/-- `ms_per_age(storage, elapsed_ms)`.  `age_now` and `ages_flushed` are the
values read from the holder (`current_age()` is an 8-bit `Age`, so
`age_now < 256`); the stored baselines `last_age`/`last_ages_flushed` are
swapped to the current readings.  `Age::MAX = 255` (8-bit wrapping counter,
from `bucket_map_holder.rs`, outside this slice).  Returns the rate estimate
together with the post-swap state. -/
def ms_per_age (s : BucketMapHolderStats) (age_now ages_flushed elapsed_ms : Nat) :
    Nat × BucketMapHolderStats :=
  let last_age := s.last_age
  let last_ages_flushed := s.last_ages_flushed
  let s' := { s with last_age := age_now, last_ages_flushed := ages_flushed }
  let age_now64 := if last_age > age_now then age_now + (255 + 1) else age_now
  let age_delta := age_now64 - last_age
  let r :=
    if age_delta > 0 then elapsed_ms / age_delta
    else
      let bin_delta := ages_flushed - last_ages_flushed
      if bin_delta > 0 then (elapsed_ms * s.bins) % wordMod / bin_delta else 0
  (r, s')

end BucketMapHolderStats

/-- `STATS_INTERVAL_MS`: stats logged every 10 s. -/
def STATS_INTERVAL_MS : Nat := 10000

/-- Modelled from the spec: `solana_sdk::timing::AtomicInterval` is not under
`src/`.  Per the spec's interval-gate description, `elapsed_ms()` is the
number of milliseconds since the stored last-report timestamp (saturating). -/
def interval_elapsed_ms (last_update now : Nat) : Nat := now - last_update

/-- Modelled from the spec: `AtomicInterval::should_update(interval_ms)` is a
compare-and-swap-like gate keyed on elapsed milliseconds since the last report
being at least the interval; the winner stores the current timestamp.  Returns
whether this caller won together with the updated stored timestamp. -/
def interval_should_update (last_update now interval_ms : Nat) : Bool × Nat :=
  if interval_ms ≤ now - last_update then (true, now) else (false, last_update)

namespace BucketMapHolderStats

/-- `report_stats(storage)`, modelled sequentially.  Inputs beyond the stats
state are the current timestamp and the values read from the holder and its
optional disk collaborator: `age_now = storage.current_age()`,
`ages_flushed = storage.count_buckets_flushed()`, `startup =
storage.get_startup()`, `disk_present = storage.disk.is_some()`.  Returns the
list of emitted event names (payload fields are not modelled) and the new
state.  The early-return path leaves the state untouched; the winning path
swaps the rate baselines, swaps `last_was_startup`, and drains (reads-and-
zeros) exactly the cumulative fields emitted by the taken branch. -/
def report_stats (s : BucketMapHolderStats) (now age_now ages_flushed : Nat)
    (startup disk_present : Bool) : List String × BucketMapHolderStats :=
  let elapsed_ms := interval_elapsed_ms s.last_time now
  if elapsed_ms < STATS_INTERVAL_MS then ([], s)
  else
    let gate := interval_should_update s.last_time now STATS_INTERVAL_MS
    if !gate.1 then ([], s)
    else
      let s1 := { s with last_time := gate.2 }
      let s2 := (s1.ms_per_age age_now ages_flushed elapsed_ms).2
      let was_startup := s2.last_was_startup
      let s3 := { s2 with last_was_startup := startup }
      let mainName :=
        if startup || was_startup then "accounts_index_startup" else "accounts_index"
      if disk_present then
        ((if was_startup then ["accounts_index_startup"] else []) ++ [mainName],
         { s3 with
            flush_should_evict_us := 0
            bg_waiting_us := 0
            bg_throttling_wait_us := 0
            held_in_mem := { ref_count := 0, slot_list_len := 0, slot_list_cached := 0 }
            gets_from_mem := 0
            get_mem_us := 0
            gets_missing := 0
            get_missing_us := 0
            entries_from_mem := 0
            entry_mem_us := 0
            load_disk_found_count := 0
            load_disk_found_us := 0
            load_disk_missing_count := 0
            load_disk_missing_us := 0
            entries_missing := 0
            entry_missing_us := 0
            failed_to_evict := 0
            updates_in_mem := 0
            get_range_us := 0
            inserts := 0
            deletes := 0
            items := 0
            keys := 0
            buckets_scanned := 0
            flush_scan_us := 0
            flush_update_us := 0
            flush_grow_us := 0
            flush_evict_us := 0
            flush_entries_updated_on_disk := 0
            flush_entries_evicted_from_mem := 0 })
      else
        ([mainName],
         { s3 with
            bg_waiting_us := 0
            bg_throttling_wait_us := 0
            gets_from_mem := 0
            get_mem_us := 0
            gets_missing := 0
            get_missing_us := 0
            entries_from_mem := 0
            entry_mem_us := 0
            entries_missing := 0
            entry_missing_us := 0
            updates_in_mem := 0
            get_range_us := 0
            inserts := 0
            deletes := 0
            items := 0
            items_us := 0
            keys := 0 })

end BucketMapHolderStats

/-- Well-formed counter state: every machine counter holds a representable
value (below `2 ^ 64`).  All operations preserve this. -/
def wfCounters (s : BucketMapHolderStats) : Prop :=
  s.count_in_mem < wordMod ∧ ∀ x ∈ s.per_bucket_count, x < wordMod

/-- A state whose held-in-mem counters sum past `u64::MAX`: the two halves
add (in machine arithmetic) to `0` even though the mathematical sum is
`2 ^ 64`, which exceeds `count_in_mem = 5`. -/
def overflowState : BucketMapHolderStats :=
  { BucketMapHolderStats.new 1 with
    count_in_mem := 5,
    held_in_mem := { ref_count := 0, slot_list_len := 2 ^ 63, slot_list_cached := 2 ^ 63 } }

/-- A freshly constructed state with a pending cumulative `items_us` timer. -/
def itemsUsState : BucketMapHolderStats :=
  { BucketMapHolderStats.new 2 with items_us := 7 }

/-- A state whose previous report happened during the startup phase. -/
def startupState : BucketMapHolderStats :=
  { BucketMapHolderStats.new 2 with last_was_startup := true }

/-- A state as left by a report at time 10000, with counters accumulated since. -/
def midIntervalState : BucketMapHolderStats :=
  { BucketMapHolderStats.new 2 with last_time := 10000, inserts := 42 }

/-! Helper lemmas about sorted lists, used for the distribution summary. -/

theorem headD_mem_of_ne_nil (l : List Nat) (h : l ≠ []) : l.headD 0 ∈ l := by
  cases l with
  | nil => exact absurd rfl h
  | cons a t => simp [List.headD]

theorem getLastD_mem_of_ne_nil (l : List Nat) (h : l ≠ []) : l.getLastD 0 ∈ l := by
  induction l with
  | nil => exact absurd rfl h
  | cons a t ih =>
    cases t with
    | nil => simp [List.getLastD]
    | cons b t2 =>
      have hm := ih (by simp)
      rw [List.getLastD_cons]
      have : (b :: t2).getLastD a = (b :: t2).getLastD 0 := by
        rw [List.getLastD_cons, List.getLastD_cons]
      rw [this]
      exact List.mem_cons_of_mem a hm

theorem sorted_headD_le (l : List Nat) (hs : l.Sorted (· ≤ ·)) (x : Nat) (hx : x ∈ l) :
    l.headD 0 ≤ x := by
  cases l with
  | nil => cases hx
  | cons a t =>
    rcases List.mem_cons.mp hx with rfl | hxt
    · exact le_refl _
    · exact (List.sorted_cons.mp hs).1 x hxt

theorem sorted_le_getLastD (l : List Nat) (hs : l.Sorted (· ≤ ·)) (x : Nat) (hx : x ∈ l) :
    x ≤ l.getLastD 0 := by
  induction l with
  | nil => cases hx
  | cons a t ih =>
    cases t with
    | nil =>
      rcases List.mem_cons.mp hx with rfl | hxt
      · simp [List.getLastD]
      · cases hxt
    | cons b t2 =>
      have hrw : (a :: b :: t2).getLastD 0 = (b :: t2).getLastD 0 := by
        rw [List.getLastD_cons, List.getLastD_cons, List.getLastD_cons]
      rw [hrw]
      have hs2 : (b :: t2).Sorted (· ≤ ·) := (List.sorted_cons.mp hs).2
      rcases List.mem_cons.mp hx with rfl | hxt
      · have := (List.sorted_cons.mp hs).1 ((b :: t2).getLastD 0)
          (getLastD_mem_of_ne_nil (b :: t2) (by simp))
        exact this
      · exact ih hs2 hxt

theorem foldl_wrapAdd_eq (d : List Nat) : ∀ acc : Nat, acc < wordMod →
    d.foldl wrapAdd acc = (acc + d.sum) % wordMod := by
  induction d with
  | nil =>
    intro acc hacc
    simp [Nat.mod_eq_of_lt hacc]
  | cons x xs ih =>
    intro acc hacc
    rw [List.foldl_cons, List.sum_cons,
      ih (wrapAdd acc x) (Nat.mod_lt _ (by decide))]
    simp only [wrapAdd, Nat.mod_add_mod]
    rw [Nat.add_assoc]

namespace BucketMapHolderStats

/-- Counterexample for C1: the source sums the per-bin counts with machine
`usize` addition, which wraps modulo `2 ^ 64`: at the representable input
`[2 ^ 63, 2 ^ 63]` the program's sum component is `0`, not the mathematical
total `2 ^ 64` the claim's "sum is the total of all elements" demands. -/
theorem get_stats_sum_wraps_cex :
    (get_stats [2 ^ 63, 2 ^ 63]).2.2.1 = 0 ∧
    ([2 ^ 63, 2 ^ 63] : List Nat).sum = 2 ^ 64 ∧ (0 : Nat) ≠ 2 ^ 64 := by
  refine ⟨?_, by decide, by decide⟩
  decide

/-- C1 amended: `get_stats` is fully specified by: empty input yields
`(0, 0, 0, 0)`; `get_stats [5, 1, 3] = (1, 5, 9, 3)`;
`get_stats [4, 2, 8, 6] = (2, 8, 20, 6)`; and for every non-empty input and
every sorted rearrangement `l` of it, `get_stats data = (min, max, sum,
median)` where min/max are the least and greatest elements of `data` (the
sorted extremes, which are members of `data` and bound every element), sum
is the total of `data` modulo `2 ^ 64` (the machine `usize` sum — exactly
the mathematical total whenever that total is representable), and the
median is the element at index `len / 2` of the sorted data (upper-median
convention, no interpolation). -/
theorem get_stats_correct :
    get_stats [] = (0, 0, 0, 0) ∧
    get_stats [5, 1, 3] = (1, 5, 9, 3) ∧
    get_stats [4, 2, 8, 6] = (2, 8, 20, 6) ∧
    ∀ (data l : List Nat), data ≠ [] → data.Perm l → l.Sorted (· ≤ ·) →
      get_stats data =
        (l.headD 0, l.getLastD 0, data.sum % wordMod, l.getD (data.length / 2) 0) ∧
      (data.sum < wordMod → (get_stats data).2.2.1 = data.sum) ∧
      l.headD 0 ∈ data ∧ l.getLastD 0 ∈ data ∧
      ∀ x ∈ data, l.headD 0 ≤ x ∧ x ≤ l.getLastD 0 := by
  refine ⟨by decide, by decide, by decide, ?_⟩
  intro data l hne hp hs
  have hlne : l ≠ [] := by
    intro h
    subst h
    exact hne hp.eq_nil
  have hd : data.insertionSort (· ≤ ·) = l :=
    List.eq_of_perm_of_sorted ((List.perm_insertionSort _ data).trans hp)
      (List.sorted_insertionSort _ data) hs
  obtain ⟨a, t, rfl⟩ := List.exists_cons_of_ne_nil hne
  have htup : get_stats (a :: t) =
      (l.headD 0, l.getLastD 0, (a :: t).sum % wordMod,
        l.getD ((a :: t).length / 2) 0) := by
    simp only [get_stats, List.isEmpty_cons, Bool.false_eq_true, if_false, hd,
      foldl_wrapAdd_eq l 0 (by decide), Nat.zero_add, hp.sum_eq, hp.length_eq]
  refine ⟨htup, ?_, ?_, ?_, ?_⟩
  · intro hsum
    rw [htup]
    exact Nat.mod_eq_of_lt hsum
  · exact hp.mem_iff.mpr (headD_mem_of_ne_nil l hlne)
  · exact hp.mem_iff.mpr (getLastD_mem_of_ne_nil l hlne)
  · intro x hx
    have hxl : x ∈ l := hp.mem_iff.mp hx
    exact ⟨sorted_headD_le l hs x hxl, sorted_le_getLastD l hs x hxl⟩

/-- Witness for C1 amended: the universal part applied at the concrete input
`[9, 4]` with sorted rearrangement `[4, 9]`; the sum `13` is representable,
so the sum component is exact. -/
theorem get_stats_correct_witness :
    get_stats [9, 4] = (4, 9, 13, 9) ∧ (4 : Nat) ∈ [9, 4] := by
  have h := get_stats_correct.2.2.2 [9, 4] [4, 9] (by decide) (by decide) (by decide)
  refine ⟨?_, h.2.2.1⟩
  rw [h.1]
  decide

/-- C2: `ms_per_age` swaps the stored baselines (`last_age`, `last_ages_flushed`)
to the current readings, and returns `elapsed_ms / age_delta` when
`age_delta > 0` — where `age_delta = (age_now + MAX_AGE + 1) - last_age` on
wraparound (`last_age > age_now`; the corrected delta is positive, never
nonsensical) and `age_now - last_age` otherwise — else
`elapsed_ms * bins / bin_delta` when `bin_delta = ages_flushed
saturating-minus last_ages_flushed` is positive, else `0`; every division is
guarded by a positive divisor. -/
theorem ms_per_age_correct (s : BucketMapHolderStats) (an af e : Nat)
    (hla : s.last_age < 256) (han : an < 256) :
    ((s.ms_per_age an af e).2.last_age = an ∧
      (s.ms_per_age an af e).2.last_ages_flushed = af) ∧
    (an < s.last_age →
      0 < an + 256 - s.last_age ∧ (s.ms_per_age an af e).1 = e / (an + 256 - s.last_age)) ∧
    (s.last_age < an → 0 < an - s.last_age ∧ (s.ms_per_age an af e).1 = e / (an - s.last_age)) ∧
    (s.last_age = an → s.last_ages_flushed < af →
      (s.ms_per_age an af e).1 = (e * s.bins) % wordMod / (af - s.last_ages_flushed)) ∧
    (s.last_age = an → af ≤ s.last_ages_flushed → (s.ms_per_age an af e).1 = 0) := by
  refine ⟨⟨rfl, rfl⟩, ?_, ?_, ?_, ?_⟩
  · intro h
    refine ⟨by omega, ?_⟩
    simp only [ms_per_age]
    rw [if_pos (show s.last_age > an from h),
        if_pos (show an + (255 + 1) - s.last_age > 0 by omega)]
  · intro h
    refine ⟨by omega, ?_⟩
    simp only [ms_per_age]
    rw [if_neg (show ¬s.last_age > an by omega),
        if_pos (show an - s.last_age > 0 by omega)]
  · intro h hb
    simp only [ms_per_age]
    rw [if_neg (show ¬s.last_age > an by omega),
        if_neg (show ¬an - s.last_age > 0 by omega),
        if_pos (show af - s.last_ages_flushed > 0 by omega)]
  · intro h hb
    simp only [ms_per_age]
    rw [if_neg (show ¬s.last_age > an by omega),
        if_neg (show ¬an - s.last_age > 0 by omega),
        if_neg (show ¬af - s.last_ages_flushed > 0 by omega)]

/-- Witness for C2: the spec's age-wrap scenario — previous baseline 250 and
new Age 3 give `age_delta = (3 + 256) - 250 = 9`, so 90 elapsed ms yield 10. -/
theorem ms_per_age_correct_witness :
    (BucketMapHolderStats.ms_per_age { new 1 with last_age := 250 } 3 0 90).1 = 10 ∧
    (BucketMapHolderStats.ms_per_age { new 1 with last_age := 250 } 3 0 90).2.last_age = 3 := by
  have h := ms_per_age_correct { new 1 with last_age := 250 } 3 0 90 (by decide) (by decide)
  obtain ⟨hpos, hdiv⟩ := h.2.1 (by decide)
  refine ⟨?_, h.1.1⟩
  rw [hdiv]
  norm_num

end BucketMapHolderStats

/-! Arithmetic facts about the wrapping machine operations, and facts about
`modifyAt` (the `Vec::get(i).map(fetch-op)` pattern). -/

theorem wordMod_pos : 0 < wordMod := by decide

theorem wrapAdd_lt (a b : Nat) : wrapAdd a b < wordMod :=
  Nat.mod_lt _ wordMod_pos

theorem wrapSub_lt (a b : Nat) : wrapSub a b < wordMod :=
  Nat.mod_lt _ wordMod_pos

theorem wrapSub_wrapAdd_cancel (x n : Nat) (hx : x < wordMod) :
    wrapSub (wrapAdd x n) n = x := by
  simp only [wrapSub, wrapAdd, wordMod] at hx ⊢
  omega

theorem wrapSub_eq_sub (a b : Nat) (ha : a < wordMod) (hb : b ≤ a) :
    wrapSub a b = a - b := by
  simp only [wrapSub, wordMod] at ha ⊢
  omega

theorem modifyAt_length (l : List Nat) (i : Nat) (f : Nat → Nat) :
    (modifyAt l i f).length = l.length := by
  induction l generalizing i with
  | nil => rfl
  | cons x xs ih =>
    cases i with
    | zero => rfl
    | succ j => simp [modifyAt, ih]

theorem modifyAt_out_of_range (l : List Nat) (i : Nat) (f : Nat → Nat)
    (h : l.length ≤ i) : modifyAt l i f = l := by
  induction l generalizing i with
  | nil => rfl
  | cons x xs ih =>
    cases i with
    | zero => simp at h
    | succ j =>
      simp only [List.length_cons] at h
      simp [modifyAt, ih j (by omega)]

theorem modifyAt_getD (l : List Nat) (i : Nat) (f : Nat → Nat)
    (h : i < l.length) : (modifyAt l i f).getD i 0 = f (l.getD i 0) := by
  induction l generalizing i with
  | nil => simp at h
  | cons x xs ih =>
    cases i with
    | zero => rfl
    | succ j =>
      simp only [List.length_cons] at h
      show (x :: modifyAt xs j f).getD (j + 1) 0 = f ((x :: xs).getD (j + 1) 0)
      rw [List.getD_cons_succ, List.getD_cons_succ]
      exact ih j (by omega)

theorem mem_modifyAt (l : List Nat) (i : Nat) (f : Nat → Nat) (P : Nat → Prop)
    (hl : ∀ x ∈ l, P x) (hf : ∀ x, P (f x)) :
    ∀ x ∈ modifyAt l i f, P x := by
  induction l generalizing i with
  | nil => intro x hx; cases hx
  | cons a xs ih =>
    cases i with
    | zero =>
      intro x hx
      rcases List.mem_cons.mp hx with rfl | hxt
      · exact hf a
      · exact hl x (List.mem_cons_of_mem a hxt)
    | succ j =>
      intro x hx
      rcases List.mem_cons.mp hx with rfl | hxt
      · exact hl x (List.mem_cons_self x xs)
      · exact ih j (fun y hy => hl y (List.mem_cons_of_mem a hy)) x hxt

theorem modifyAt_modifyAt_cancel (l : List Nat) (i : Nat) (f g : Nat → Nat)
    (h : ∀ x ∈ l, g (f x) = x) :
    modifyAt (modifyAt l i f) i g = l := by
  induction l generalizing i with
  | nil => rfl
  | cons a xs ih =>
    cases i with
    | zero => simp [modifyAt, h a (List.mem_cons_self a xs)]
    | succ j => simp [modifyAt, ih j (fun y hy => h y (List.mem_cons_of_mem a hy))]

namespace BucketMapHolderStats

/-- C10: `count_in_bucket` is total and pure: it is a plain function of the
state (no state is modified), returning `0` for every out-of-range bucket
index and the bin's current per-bucket count for an in-range one. -/
theorem count_in_bucket_total (s : BucketMapHolderStats) (bucket : Nat)
    (hlen : s.per_bucket_count.length = s.bins) :
    (s.bins ≤ bucket → s.count_in_bucket bucket = 0) ∧
    (bucket < s.bins → s.count_in_bucket bucket = s.per_bucket_count.getD bucket 0) := by
  constructor
  · intro h
    unfold count_in_bucket
    rw [if_neg (by omega)]
  · intro h
    unfold count_in_bucket
    rw [if_pos (by omega)]

/-- Witness for C10: a 3-bin state; bucket 5 is out of range and yields 0,
bucket 1 is in range and yields its (zero-initialised) counter. -/
theorem count_in_bucket_total_witness :
    (BucketMapHolderStats.new 3).count_in_bucket 5 = 0 ∧
    (BucketMapHolderStats.new 3).count_in_bucket 1 =
      (BucketMapHolderStats.new 3).per_bucket_count.getD 1 0 := by
  refine ⟨(count_in_bucket_total (new 3) 5 (by decide)).1 (by decide), ?_⟩
  exact (count_in_bucket_total (new 3) 1 (by decide)).2 (by decide)

/-- C4: for every out-of-range bin index (`bin ≥ bins`) and every count `n`,
`add_mem_count` and `sub_mem_count` (and the single-step `inc_mem_count` /
`dec_mem_count`) are total (never trap), leave every per-bucket counter
unchanged, and still adjust the global `count_in_mem` by `n` (machine
add/sub); for `bin < bins` they adjust both the global total and the bin's
own counter by `n`. -/
theorem mem_count_out_of_range_safe (s : BucketMapHolderStats) (bin n : Nat)
    (hlen : s.per_bucket_count.length = s.bins) :
    (s.bins ≤ bin →
      (s.add_mem_count bin n).count_in_mem = wrapAdd s.count_in_mem n ∧
      (s.add_mem_count bin n).per_bucket_count = s.per_bucket_count ∧
      (s.sub_mem_count bin n).count_in_mem = wrapSub s.count_in_mem n ∧
      (s.sub_mem_count bin n).per_bucket_count = s.per_bucket_count) ∧
    (bin < s.bins →
      (s.add_mem_count bin n).count_in_mem = wrapAdd s.count_in_mem n ∧
      (s.add_mem_count bin n).count_in_bucket bin = wrapAdd (s.count_in_bucket bin) n ∧
      (s.sub_mem_count bin n).count_in_mem = wrapSub s.count_in_mem n ∧
      (s.sub_mem_count bin n).count_in_bucket bin = wrapSub (s.count_in_bucket bin) n) ∧
    s.inc_mem_count bin = s.add_mem_count bin 1 ∧
    s.dec_mem_count bin = s.sub_mem_count bin 1 := by
  refine ⟨?_, ?_, rfl, rfl⟩
  · intro h
    exact ⟨rfl, modifyAt_out_of_range _ _ _ (by omega), rfl,
      modifyAt_out_of_range _ _ _ (by omega)⟩
  · intro h
    have hb : bin < s.per_bucket_count.length := by omega
    refine ⟨rfl, ?_, rfl, ?_⟩
    · unfold count_in_bucket add_mem_count
      rw [if_pos (by rw [modifyAt_length]; omega), if_pos hb]
      exact modifyAt_getD _ _ _ hb
    · unfold count_in_bucket sub_mem_count
      rw [if_pos (by rw [modifyAt_length]; omega), if_pos hb]
      exact modifyAt_getD _ _ _ hb

/-- Witness for C4: a 2-bin state; bin 7 is out of range, yet
`add_mem_count 7 5` leaves the per-bucket vector unchanged and raises the
global total by 5, and bin 0 (in range) adjusts both. -/
theorem mem_count_out_of_range_safe_witness :
    ((BucketMapHolderStats.new 2).add_mem_count 7 5).per_bucket_count =
      (BucketMapHolderStats.new 2).per_bucket_count ∧
    ((BucketMapHolderStats.new 2).add_mem_count 7 5).count_in_mem =
      wrapAdd (BucketMapHolderStats.new 2).count_in_mem 5 ∧
    ((BucketMapHolderStats.new 2).add_mem_count 0 5).count_in_bucket 0 =
      wrapAdd ((BucketMapHolderStats.new 2).count_in_bucket 0) 5 := by
  have h := mem_count_out_of_range_safe (new 2) 7 5 (by decide)
  have h2 := mem_count_out_of_range_safe (new 2) 0 5 (by decide)
  exact ⟨(h.1 (by decide)).2.1, (h.1 (by decide)).1, (h2.2.1 (by decide)).2.1⟩

/-- Counterexample for C5: at `overflowState` the held-in-mem counters sum
mathematically past `count_in_mem = 5`, yet the estimate is `5`, not `0`:
the u64 additions wrap modulo `2 ^ 64` before the saturating subtraction. -/
theorem get_remaining_overflow_cex :
    overflowState.count_in_mem < overflowState.held_in_mem.slot_list_cached +
      overflowState.held_in_mem.slot_list_len + overflowState.held_in_mem.ref_count ∧
    overflowState.get_remaining_items_to_flush_estimate = 5 ∧ (5 : Nat) ≠ 0 := by
  refine ⟨by decide, ?_, by decide⟩
  decide

/-- C5 amended: provided the held-in-mem counters' mathematical sum is
representable in u64 (below `2 ^ 64`), `get_remaining_items_to_flush_estimate`
returns `count_in_mem` saturating-minus that sum: exactly `0` when the sum
exceeds `count_in_mem` — never a wrapped huge value, never a trap — and the
exact difference otherwise.  (At states whose sum overflows u64, the inner
additions wrap first, as `get_remaining_overflow_cex` shows.) -/
theorem get_remaining_saturates (s : BucketMapHolderStats)
    (h : s.held_in_mem.slot_list_cached + s.held_in_mem.slot_list_len +
      s.held_in_mem.ref_count < wordMod) :
    (s.count_in_mem < s.held_in_mem.slot_list_cached + s.held_in_mem.slot_list_len +
        s.held_in_mem.ref_count → s.get_remaining_items_to_flush_estimate = 0) ∧
    (s.held_in_mem.slot_list_cached + s.held_in_mem.slot_list_len +
        s.held_in_mem.ref_count ≤ s.count_in_mem →
      s.get_remaining_items_to_flush_estimate =
        s.count_in_mem - (s.held_in_mem.slot_list_cached + s.held_in_mem.slot_list_len +
          s.held_in_mem.ref_count)) := by
  have hsum : wrapAdd (wrapAdd s.held_in_mem.slot_list_cached s.held_in_mem.slot_list_len)
      s.held_in_mem.ref_count =
      s.held_in_mem.slot_list_cached + s.held_in_mem.slot_list_len +
        s.held_in_mem.ref_count := by
    simp only [wrapAdd, wordMod] at h ⊢
    omega
  constructor
  · intro hc
    simp only [get_remaining_items_to_flush_estimate, hsum]
    omega
  · intro hc
    simp only [get_remaining_items_to_flush_estimate, hsum]

/-- Witness for C5 amended: a state with `count_in_mem = 10` and held-in-mem
sum `1 + 2 + 3` yields the exact difference. -/
theorem get_remaining_saturates_witness :
    ({ BucketMapHolderStats.new 1 with
        count_in_mem := 10,
        held_in_mem := { ref_count := 3, slot_list_len := 2, slot_list_cached := 1 } } :
      BucketMapHolderStats).get_remaining_items_to_flush_estimate = 10 - (1 + 2 + 3) := by
  exact (get_remaining_saturates _ (by decide)).2 (by decide)

/-- Counterexample for C8: `inc_delete` on a state whose total count is `0`
performs an atomic `fetch_sub(1)`, which wraps to `2 ^ 64 - 1` instead of
stopping at zero: the subtraction is wrapping, not saturating. -/
theorem inc_delete_wraps_cex :
    (BucketMapHolderStats.new 1).count = 0 ∧
    (BucketMapHolderStats.new 1).inc_delete.count = 2 ^ 64 - 1 ∧
    (2 ^ 64 - 1 : Nat) ≠ 0 := by
  refine ⟨rfl, ?_, by decide⟩
  decide

/-- C8 amended: no subtracting operation of the subsystem traps; the atomic
`fetch_sub` operations (`inc_delete`, `sub_mem_count`, `dec_mem_count`) wrap
modulo `2 ^ 64` — yielding the exact difference whenever the counter is at
least the subtrahend — while the subtracting read
`get_remaining_items_to_flush_estimate` uses saturating subtraction and
stops at zero (its result never exceeds `count_in_mem`). -/
theorem sub_ops_wrap_not_saturate (s : BucketMapHolderStats) (bin n : Nat) :
    s.inc_delete.count = wrapSub s.count 1 ∧
    (s.sub_mem_count bin n).count_in_mem = wrapSub s.count_in_mem n ∧
    (s.dec_mem_count bin).count_in_mem = wrapSub s.count_in_mem 1 ∧
    (s.count_in_mem < wordMod → n ≤ s.count_in_mem →
      (s.sub_mem_count bin n).count_in_mem = s.count_in_mem - n) ∧
    s.get_remaining_items_to_flush_estimate ≤ s.count_in_mem := by
  refine ⟨rfl, rfl, rfl, ?_, ?_⟩
  · intro h1 h2
    exact wrapSub_eq_sub _ _ h1 h2
  · simp only [get_remaining_items_to_flush_estimate]
    omega

/-- Witness for C8 amended: subtracting 4 from a counter at 9 gives 5. -/
theorem sub_ops_wrap_not_saturate_witness :
    (({ BucketMapHolderStats.new 1 with count_in_mem := 9 } :
        BucketMapHolderStats).sub_mem_count 0 4).count_in_mem = 9 - 4 := by
  exact (sub_ops_wrap_not_saturate
    { BucketMapHolderStats.new 1 with count_in_mem := 9 } 0 4).2.2.2.1 (by decide) (by decide)

/-! Single-step cancellation and well-formedness preservation, for the
increment/decrement round-trip property. -/

theorem wfCounters_inc (s : BucketMapHolderStats) (bin : Nat) (h : wfCounters s) :
    wfCounters (s.inc_mem_count bin) := by
  obtain ⟨h1, h2⟩ := h
  exact ⟨wrapAdd_lt _ _, mem_modifyAt _ _ _ _ h2 (fun x => wrapAdd_lt x 1)⟩

theorem dec_inc_cancel (s : BucketMapHolderStats) (bin : Nat) (h : wfCounters s) :
    (s.inc_mem_count bin).dec_mem_count bin = s := by
  obtain ⟨hc, hl⟩ := h
  have h1 : wrapSub (wrapAdd s.count_in_mem 1) 1 = s.count_in_mem :=
    wrapSub_wrapAdd_cancel _ _ hc
  have h2 : modifyAt (modifyAt s.per_bucket_count bin (fun x => wrapAdd x 1)) bin
      (fun x => wrapSub x 1) = s.per_bucket_count :=
    modifyAt_modifyAt_cancel _ _ _ _ (fun x hx => wrapSub_wrapAdd_cancel x 1 (hl x hx))
  simp only [inc_mem_count, dec_mem_count, add_mem_count, sub_mem_count, h1, h2]

theorem wfCounters_inc_iter (s : BucketMapHolderStats) (bin c : Nat) (h : wfCounters s) :
    wfCounters ((fun t => BucketMapHolderStats.inc_mem_count t bin)^[c] s) := by
  induction c with
  | zero => simpa using h
  | succ k ih =>
    rw [Function.iterate_succ_apply']
    exact wfCounters_inc _ bin ih

theorem inc_dec_iter_cancel (bin : Nat) : ∀ (c : Nat) (t : BucketMapHolderStats),
    wfCounters t →
    (fun t => BucketMapHolderStats.dec_mem_count t bin)^[c]
      ((fun t => BucketMapHolderStats.inc_mem_count t bin)^[c] t) = t := by
  intro c
  induction c with
  | zero => intro t ht; rfl
  | succ k ih =>
    intro t ht
    rw [Function.iterate_succ_apply' (fun t => BucketMapHolderStats.inc_mem_count t bin) k t,
      Function.iterate_succ_apply (fun t => BucketMapHolderStats.dec_mem_count t bin) k]
    rw [dec_inc_cancel _ bin (wfCounters_inc_iter t bin k ht)]
    exact ih t ht

/-- C9: for every bin index, every count, and every starting state with
representable counters, applying `inc_mem_count bin` `count` times and then
`dec_mem_count bin` `count` times returns both the global `count_in_mem`
counter and the whole per-bucket counter vector (in particular the bin's own
counter) to their original values. -/
theorem inc_dec_roundtrip (s : BucketMapHolderStats) (bin count : Nat) (h : wfCounters s) :
    ((fun t => BucketMapHolderStats.dec_mem_count t bin)^[count]
        ((fun t => BucketMapHolderStats.inc_mem_count t bin)^[count] s)).count_in_mem =
      s.count_in_mem ∧
    ((fun t => BucketMapHolderStats.dec_mem_count t bin)^[count]
        ((fun t => BucketMapHolderStats.inc_mem_count t bin)^[count] s)).per_bucket_count =
      s.per_bucket_count := by
  rw [inc_dec_iter_cancel bin count s h]
  exact ⟨rfl, rfl⟩

/-- Witness for C9: three increments then three decrements of bin 1 of a
fresh 2-bin state restore the global counter. -/
theorem inc_dec_roundtrip_witness :
    ((fun t => BucketMapHolderStats.dec_mem_count t 1)^[3]
        ((fun t => BucketMapHolderStats.inc_mem_count t 1)^[3]
          (BucketMapHolderStats.new 2))).count_in_mem =
      (BucketMapHolderStats.new 2).count_in_mem := by
  exact (inc_dec_roundtrip (new 2) 1 3 ⟨by decide, by decide⟩).1

/-- C3: the interval gate lets the drain-and-emit logic run at most once per
10,000 ms window.  A winning call (one that emits events) stores its
timestamp `now`; any later call on a state carrying that timestamp, made
fewer than `STATS_INTERVAL_MS` ms after `now`, returns immediately with no
events and no state change whatsoever — so counters accumulated between the
two calls are neither drained early nor double-reported. -/
theorem report_stats_interval_gate (s : BucketMapHolderStats) (now an af : Nat)
    (st dp : Bool) (hwin : (s.report_stats now an af st dp).1 ≠ []) :
    (s.report_stats now an af st dp).2.last_time = now ∧
    ∀ (s2 : BucketMapHolderStats) (t2 an2 af2 : Nat) (st2 dp2 : Bool),
      s2.last_time = now → t2 < now + STATS_INTERVAL_MS →
      s2.report_stats t2 an2 af2 st2 dp2 = ([], s2) := by
  constructor
  · by_cases h1 : interval_elapsed_ms s.last_time now < STATS_INTERVAL_MS
    · exfalso
      apply hwin
      simp only [report_stats, if_pos h1]
    · have h2 : STATS_INTERVAL_MS ≤ now - s.last_time := by
        simp only [interval_elapsed_ms] at h1
        omega
      simp only [report_stats, interval_should_update, ms_per_age, if_neg h1, if_pos h2,
        Bool.not_true, Bool.false_eq_true, if_false]
      cases dp <;> simp
  · intro s2 t2 an2 af2 st2 dp2 hlast hlt
    have hcond : interval_elapsed_ms s2.last_time t2 < STATS_INTERVAL_MS := by
      simp only [interval_elapsed_ms, STATS_INTERVAL_MS] at hlt ⊢
      omega
    simp only [report_stats, if_pos hcond]

/-- Witness for C3: a fresh state reports at t = 10000 (events are emitted
and the timestamp is stored); a second call at t = 15000, on a state whose
last report was at 10000 and which has accumulated inserts since, is a
complete no-op. -/
theorem report_stats_interval_gate_witness :
    ((BucketMapHolderStats.new 2).report_stats 10000 1 2 false false).2.last_time = 10000 ∧
    BucketMapHolderStats.report_stats midIntervalState 15000 1 2 false false =
      ([], midIntervalState) := by
  have h := report_stats_interval_gate (new 2) 10000 1 2 false false (by decide)
  exact ⟨h.1, h.2 midIntervalState 15000 1 2 false false (by decide) (by decide)⟩

/-- Counterexample for C6: with disk present, the winning path does NOT drain
the cumulative `items_us` timer (it is emitted and zeroed only in the
disk-absent branch), so "drains every cumulative counter/timer field in both
branches" fails: a pending `items_us = 7` survives a disk-branch report. -/
theorem report_stats_items_us_not_drained_cex :
    (BucketMapHolderStats.report_stats itemsUsState 10000 1 2 false true).1 ≠ [] ∧
    (BucketMapHolderStats.report_stats itemsUsState 10000 1 2 false true).2.items_us = 7 ∧
    (7 : Nat) ≠ 0 := by
  exact ⟨by decide, by decide, by decide⟩

/-- C6 amended: when `report_stats` wins the interval gate it drains
(zeroes) exactly the cumulative counter/timer fields emitted by the taken
branch, updates the baselines (`last_time`, `last_age`, `last_ages_flushed`,
`last_was_startup`), and leaves everything else — the gauges `count_in_mem`,
`count`, `active_threads`, `estimate_mem`, the per-bucket counters, and the
cumulative fields the branch does not emit — unchanged.  With disk present
every cumulative field except `items_us` is drained; without disk only the
memory-path counters are drained, and the held-in-mem, disk-load, flush and
eviction counters survive. -/
theorem report_stats_drain_frame (s : BucketMapHolderStats) (now an af : Nat)
    (st : Bool) (h1 : STATS_INTERVAL_MS ≤ now - s.last_time) :
    s.report_stats now an af st true =
      ((if s.last_was_startup then ["accounts_index_startup"] else []) ++
        [if st || s.last_was_startup then "accounts_index_startup" else "accounts_index"],
       { s with
          last_time := now, last_age := an, last_ages_flushed := af,
          last_was_startup := st,
          flush_should_evict_us := 0, bg_waiting_us := 0, bg_throttling_wait_us := 0,
          held_in_mem := { ref_count := 0, slot_list_len := 0, slot_list_cached := 0 },
          gets_from_mem := 0, get_mem_us := 0, gets_missing := 0, get_missing_us := 0,
          entries_from_mem := 0, entry_mem_us := 0,
          load_disk_found_count := 0, load_disk_found_us := 0,
          load_disk_missing_count := 0, load_disk_missing_us := 0,
          entries_missing := 0, entry_missing_us := 0,
          failed_to_evict := 0, updates_in_mem := 0, get_range_us := 0,
          inserts := 0, deletes := 0, items := 0, keys := 0, buckets_scanned := 0,
          flush_scan_us := 0, flush_update_us := 0, flush_grow_us := 0,
          flush_evict_us := 0, flush_entries_updated_on_disk := 0,
          flush_entries_evicted_from_mem := 0 }) ∧
    s.report_stats now an af st false =
      ([if st || s.last_was_startup then "accounts_index_startup" else "accounts_index"],
       { s with
          last_time := now, last_age := an, last_ages_flushed := af,
          last_was_startup := st,
          bg_waiting_us := 0, bg_throttling_wait_us := 0,
          gets_from_mem := 0, get_mem_us := 0, gets_missing := 0, get_missing_us := 0,
          entries_from_mem := 0, entry_mem_us := 0,
          entries_missing := 0, entry_missing_us := 0,
          updates_in_mem := 0, get_range_us := 0,
          inserts := 0, deletes := 0, items := 0, items_us := 0, keys := 0 }) := by
  have hn : ¬interval_elapsed_ms s.last_time now < STATS_INTERVAL_MS := by
    simp only [interval_elapsed_ms]
    omega
  constructor
  · simp only [report_stats, interval_should_update, ms_per_age, if_neg hn, if_pos h1,
      Bool.not_true, Bool.false_eq_true, if_false, if_true]
  · simp only [report_stats, interval_should_update, ms_per_age, if_neg hn, if_pos h1,
      Bool.not_true, Bool.false_eq_true, if_false, if_true]

/-- Witness for C6 amended: a winning disk-branch report on a fresh 2-bin
state leaves the resident-count gauge untouched and stores the timestamp. -/
theorem report_stats_drain_frame_witness :
    ((BucketMapHolderStats.new 2).report_stats 10000 1 2 false true).2.count_in_mem =
      (BucketMapHolderStats.new 2).count_in_mem ∧
    ((BucketMapHolderStats.new 2).report_stats 10000 1 2 false true).2.last_time = 10000 := by
  have h := (report_stats_drain_frame (new 2) 10000 1 2 false (by decide)).1
  rw [h]
  exact ⟨rfl, rfl⟩

/-- Counterexample for C7: with disk present and the previous report made
during startup, a winning call emits TWO events (the startup entry-creation
datapoint plus the main datapoint), not exactly one. -/
theorem report_stats_two_events_cex :
    (BucketMapHolderStats.report_stats startupState 10000 1 2 false true).1.length = 2 ∧
    (2 : Nat) ≠ 1 := by
  exact ⟨by decide, by decide⟩

/-- C7 amended: each winning call emits one main event named
`accounts_index_startup` when the system is in (or was in, at the previous
report) the startup phase and `accounts_index` otherwise — plus one extra
`accounts_index_startup` event (carrying startup entry-creation stats) when
disk is present and the previous report was during startup; in every other
case exactly one event is emitted. -/
theorem report_stats_event_names (s : BucketMapHolderStats) (now an af : Nat)
    (st dp : Bool) (h1 : STATS_INTERVAL_MS ≤ now - s.last_time) :
    (s.report_stats now an af st dp).1 =
      (if dp && s.last_was_startup then ["accounts_index_startup"] else []) ++
        [if st || s.last_was_startup then "accounts_index_startup" else "accounts_index"] ∧
    (dp = false ∨ s.last_was_startup = false →
      (s.report_stats now an af st dp).1.length = 1) := by
  have hn : ¬interval_elapsed_ms s.last_time now < STATS_INTERVAL_MS := by
    simp only [interval_elapsed_ms]
    omega
  constructor
  · cases dp <;>
      cases hws : s.last_was_startup <;>
        simp only [report_stats, interval_should_update, ms_per_age, if_neg hn, if_pos h1,
          Bool.not_true, Bool.false_eq_true, if_false, if_true, hws, Bool.and_true,
          Bool.and_false, Bool.true_and, Bool.false_and, List.nil_append,
          List.singleton_append]
  · intro hcase
    cases dp <;> cases hws : s.last_was_startup <;>
      (simp only [report_stats, interval_should_update, ms_per_age, if_neg hn, if_pos h1,
         Bool.not_true, Bool.false_eq_true, if_false, if_true, hws,
         List.nil_append, List.singleton_append, List.length_cons,
         List.length_nil, List.length_singleton]
       all_goals
         first
           | rfl
           | (rcases hcase with hc | hc
              · exact absurd hc (by decide)
              · exact absurd hc (by simp [hws])))

/-- Witness for C7 amended: a winning no-disk, non-startup call emits the
single event `accounts_index`. -/
theorem report_stats_event_names_witness :
    ((BucketMapHolderStats.new 2).report_stats 10000 1 2 false false).1 =
      ["accounts_index"] ∧
    ((BucketMapHolderStats.new 2).report_stats 10000 1 2 false false).1.length = 1 := by
  have h := report_stats_event_names (new 2) 10000 1 2 false false (by decide)
  refine ⟨?_, h.2 (Or.inl rfl)⟩
  rw [h.1]
  decide

end BucketMapHolderStats

end BucketMap
